import Mathlib

/-!
# Verification of the Ornithe installer's profile/artifact synthesis engine

A shallow embedding, over `List Char` strings and association-list JSON
objects, of the pure core of `ornithe-installer-rs`:

* `src/actions/server.rs`: `wrap_manifest_line`, the manifest assembly in
  `create_launch_jar`, `split_artifact`, `read_jar_manifest_attribute`,
  the library-download loop of `install_path`, and the install/skip
  decision of `install_and_run`;
* `src/net/manifest.rs`: `build_version_json_from_manifest` (the recursive
  manifest merge);
* `src/actions/client.rs`: `update_profiles`;
* `src/actions/mmc_pack.rs`: the output-location check of `install` and the
  extra-library coordinate splitting.

Strings are modelled as `List Char` (Rust `char` iteration); Rust `String`
concatenation is `List.append`.  JSON values (`serde_json::Value`) are an
inductive `Json` with objects as association lists; the claims proved about
objects are stated through `lookupKey`, which is insensitive to the entry
order and therefore valid for both map representations of `serde_json`.
-/

namespace Ornithe

/-! ## Basic character/string helpers -/

/-- A line-break character (CR or LF). -/
def isBreakChar (c : Char) : Bool := c = '\r' || c = '\n'

/-- ASCII whitespace, as used by Rust's `str::trim_ascii` /
`u8::is_ascii_whitespace`: space, tab, LF, FF, CR. -/
def isAsciiWsp (c : Char) : Bool :=
  c = ' ' || c = '\t' || c = '\n' || c = '\x0c' || c = '\r'

/-- Rust `str::trim_ascii`: remove leading and trailing ASCII whitespace. -/
def trimAscii (l : List Char) : List Char :=
  ((l.dropWhile isAsciiWsp).reverse.dropWhile isAsciiWsp).reverse

/-- Does `pfx` occur at the start of `l`?  (Rust `str::starts_with`.) -/
def beginsWith : List Char → List Char → Bool
  | [], _ => true
  | _ :: _, [] => false
  | p :: ps, c :: cs => p = c && beginsWith ps cs

/-- Does `needle` occur as a contiguous substring of `hay`?
(Rust `str::contains`.) -/
def hasSub : List Char → List Char → Bool
  | hay, needle =>
    beginsWith needle hay ||
      match hay with
      | [] => false
      | _ :: t => hasSub t needle

/-! ## `wrap_manifest_line` (src/actions/server.rs, lines 316-329)

```rust
fn wrap_manifest_line(line: &str) -> String {
    let mut res = String::new();
    let mut count = 0;
    for char in line.chars() {
        res += &char.to_string();
        count += 1;
        // Manifest lines are at at most 72 chars long
        if count == 72 {
            res += "\r\n ";
            count = 1;
        }
    }
    res
}
```
-/

/-- The loop of `wrap_manifest_line`, with the running `count`. -/
def wrapGo : List Char → Nat → List Char
  | [], _ => []
  | c :: cs, count =>
    if count + 1 = 72 then c :: '\r' :: '\n' :: ' ' :: wrapGo cs 1
    else c :: wrapGo cs (count + 1)

/-- `wrap_manifest_line` from `src/actions/server.rs`. -/
def wrap_manifest_line (line : List Char) : List Char := wrapGo line 0

/-- Prepend a character to the first segment of a segment list. -/
def consHead (c : Char) : List (List Char) → List (List Char)
  | [] => [[c]]
  | s :: ss => (c :: s) :: ss

/-- Split a string at every occurrence of the continuation marker
`"\r\n "`, scanning left to right; the marker itself is not part of any
segment. -/
def splitOnMarker : List Char → List (List Char)
  | [] => [[]]
  | '\r' :: '\n' :: ' ' :: r => [] :: splitOnMarker r
  | c :: rest => consHead c (splitOnMarker rest)

/-- Delete every occurrence of the continuation marker `"\r\n "`,
scanning left to right (the semantics of Rust `str::replace("\r\n ", "")`). -/
def removeMarker : List Char → List Char
  | [] => []
  | '\r' :: '\n' :: ' ' :: r => removeMarker r
  | c :: rest => c :: removeMarker rest

/-- Split a string into its physical lines: the maximal runs of characters
containing no CR and no LF. -/
def runs (l : List Char) : List (List Char) :=
  match l with
  | [] => [[]]
  | c :: rest =>
    if isBreakChar c then [] :: runs rest
    else
      match runs rest with
      | [] => [[c]]
      | s :: ss => (c :: s) :: ss

/-! ### Unfolding lemmas for the scanners -/

@[simp] theorem splitOnMarker_nil : splitOnMarker [] = [[]] := rfl

theorem consHead_ne_nil (c : Char) (L : List (List Char)) : consHead c L ≠ [] := by
  cases L <;> simp [consHead]

theorem splitOnMarker_ne_nil (l : List Char) : splitOnMarker l ≠ [] := by
  rw [splitOnMarker.eq_def]
  split
  · simp
  · simp
  · exact consHead_ne_nil _ _

theorem splitOnMarker_marker (r : List Char) :
    splitOnMarker ('\r' :: '\n' :: ' ' :: r) = [] :: splitOnMarker r := rfl

theorem splitOnMarker_consHead (c : Char) (rest : List Char) (h : c ≠ '\r') :
    splitOnMarker (c :: rest) = consHead c (splitOnMarker rest) := by
  rw [splitOnMarker.eq_def]
  split
  · rename_i heq
    exact absurd heq (List.cons_ne_nil _ _)
  · rename_i r heq
    injection heq with h1 h2
    exact absurd h1 h
  · rename_i c' rest' hno heq
    injection heq with h1 h2
    subst h1; subst h2; rfl

theorem splitOnMarker_cons_ne (c : Char) (rest : List Char) (h : c ≠ '\r') :
    splitOnMarker (c :: rest) =
      (c :: (splitOnMarker rest).headI) :: (splitOnMarker rest).tail := by
  rw [splitOnMarker_consHead c rest h]
  cases h' : splitOnMarker rest with
  | nil => exact absurd h' (splitOnMarker_ne_nil rest)
  | cons s ss => simp [consHead]

@[simp] theorem removeMarker_nil : removeMarker [] = [] := rfl

theorem removeMarker_marker (r : List Char) :
    removeMarker ('\r' :: '\n' :: ' ' :: r) = removeMarker r := rfl

theorem removeMarker_cons_ne (c : Char) (rest : List Char) (h : c ≠ '\r') :
    removeMarker (c :: rest) = c :: removeMarker rest := by
  rw [removeMarker.eq_def]
  split
  · rename_i heq
    exact absurd heq (List.cons_ne_nil _ _)
  · rename_i r heq
    injection heq with h1 h2
    exact absurd h1 h
  · rename_i c' rest' hno heq
    injection heq with h1 h2
    subst h1; subst h2; rfl

@[simp] theorem runs_nil : runs [] = [[]] := rfl

theorem runs_ne_nil (l : List Char) : runs l ≠ [] := by
  cases l with
  | nil => simp
  | cons c rest =>
    rw [runs]
    split
    · simp
    · split <;> simp

theorem runs_break (c : Char) (rest : List Char) (h : isBreakChar c = true) :
    runs (c :: rest) = [] :: runs rest := by
  rw [runs]
  simp [h]

theorem runs_cons_ne (c : Char) (rest : List Char) (h : isBreakChar c = false) :
    runs (c :: rest) = (c :: (runs rest).headI) :: (runs rest).tail := by
  rw [runs]
  rw [if_neg (by simp [h])]
  cases h' : runs rest with
  | nil => exact absurd h' (runs_ne_nil rest)
  | cons s ss => simp

/-! ### The wrapping invariant (claim C1) -/

/-- Invariant of `wrap_manifest_line`'s loop: starting with counter `n ≤ 71`,
the emitted text's first marker-separated segment holds at most `72 - n`
characters, every later segment holds at most 72, and deleting the inserted
markers recovers the original text (for CR/LF-free input). -/
theorem wrapGo_split (l : List Char) :
    ∀ n : Nat, (∀ c ∈ l, c ≠ '\r' ∧ c ≠ '\n') → n ≤ 71 →
      (splitOnMarker (wrapGo l n)).headI.length + n ≤ 72 ∧
      (∀ s ∈ splitOnMarker (wrapGo l n), s.length ≤ 72) ∧
      removeMarker (wrapGo l n) = l := by
  induction l with
  | nil =>
    intro n _ hn
    refine ⟨?_, ?_, by simp [wrapGo]⟩
    · simp [wrapGo]; omega
    · intro s hs
      simp [wrapGo] at hs
      simp [hs]
  | cons c cs ih =>
    intro n hchars hn
    obtain ⟨hcr, hcn⟩ := hchars c (by simp)
    have hcs : ∀ x ∈ cs, x ≠ '\r' ∧ x ≠ '\n' := fun x hx => hchars x (by simp [hx])
    by_cases h72 : n + 1 = 72
    · have hw : wrapGo (c :: cs) n = c :: '\r' :: '\n' :: ' ' :: wrapGo cs 1 := by
        rw [wrapGo]; simp [h72]
      obtain ⟨ih1, ih2, ih3⟩ := ih 1 hcs (by omega)
      have hsplit : splitOnMarker (wrapGo (c :: cs) n) = [c] :: splitOnMarker (wrapGo cs 1) := by
        rw [hw, splitOnMarker_cons_ne c _ hcr, splitOnMarker_marker]
        simp
      refine ⟨?_, ?_, ?_⟩
      · rw [hsplit]; simp; omega
      · intro s hs
        rw [hsplit] at hs
        rcases List.mem_cons.mp hs with h | h
        · simp [h]
        · exact ih2 s h
      · rw [hw, removeMarker_cons_ne c _ hcr, removeMarker_marker, ih3]
    · have hw : wrapGo (c :: cs) n = c :: wrapGo cs (n + 1) := by
        rw [wrapGo]; simp [h72]
      obtain ⟨ih1, ih2, ih3⟩ := ih (n + 1) hcs (by omega)
      have hsplit : splitOnMarker (wrapGo (c :: cs) n) =
          (c :: (splitOnMarker (wrapGo cs (n + 1))).headI) ::
            (splitOnMarker (wrapGo cs (n + 1))).tail := by
        rw [hw, splitOnMarker_cons_ne c _ hcr]
      refine ⟨?_, ?_, ?_⟩
      · rw [hsplit]; simp; omega
      · intro s hs
        rw [hsplit] at hs
        rcases List.mem_cons.mp hs with h | h
        · simp [h]; omega
        · refine ih2 s ?_
          cases h' : splitOnMarker (wrapGo cs (n + 1)) with
          | nil => exact absurd h' (splitOnMarker_ne_nil _)
          | cons a as => rw [h'] at h; simp [h', List.mem_cons]; right; simpa using h
      · rw [hw, removeMarker_cons_ne c _ hcr, ih3]

/-- C1: for a CR/LF-free input line, `wrap_manifest_line` yields output
whose marker-separated physical segments never exceed 72 characters, and
deleting every continuation marker `"\r\n "` restores the input exactly. -/
theorem wrap_manifest_line_spec (line : List Char)
    (h : ∀ c ∈ line, c ≠ '\r' ∧ c ≠ '\n') :
    (∀ s ∈ splitOnMarker (wrap_manifest_line line), s.length ≤ 72) ∧
    removeMarker (wrap_manifest_line line) = line := by
  obtain ⟨_, h2, h3⟩ := wrapGo_split line 0 h (by omega)
  exact ⟨h2, h3⟩

set_option maxRecDepth 8000 in
/-- C1 witness: a 200-character Class-Path-like value. -/
theorem wrap_manifest_line_spec_witness :
    (∀ c ∈ List.replicate 200 'a', c ≠ '\r' ∧ c ≠ '\n') ∧
    ((∀ s ∈ splitOnMarker (wrap_manifest_line (List.replicate 200 'a')), s.length ≤ 72) ∧
      removeMarker (wrap_manifest_line (List.replicate 200 'a')) = List.replicate 200 'a') :=
  ⟨by decide, wrap_manifest_line_spec _ (by decide)⟩

/-! ## Manifest assembly in `create_launch_jar` (src/actions/server.rs, lines 262-294)

The bytes written for the `META-INF/MANIFEST.MF` entry are assembled as:

```rust
write!(manifest, "{}", mf.replace("\n\r\n", "\n"))?;
...
let mut class_path = String::from("Class-Path: ");
for library in library_files {
    let relative = library.strip_prefix(install_location)?.to_str();
    if let Some(p) = relative {
        class_path += &(p.replace("\\", "/") + " ");
    }
}
writeln!(manifest, "{}\r", wrap_manifest_line(class_path.trim_end()))?;
writeln!(manifest, "{}\r",
    wrap_manifest_line(&format!("Minecraft-Version: {}\r", version.id)))?;
```

`mf` is the template manifest text, `library_files` yields the relative
library paths (here a parameter `relPaths`).
-/

/-- Rust `str::replace("\n\r\n", "\n")`: leftmost-first, non-overlapping. -/
def collapseNRN : List Char → List Char
  | [] => []
  | '\n' :: '\r' :: '\n' :: r => '\n' :: collapseNRN r
  | c :: rest => c :: collapseNRN rest

/-- `p.replace("\\", "/")`. -/
def backslashToSlash (l : List Char) : List Char :=
  l.map (fun c => if c = '\\' then '/' else c)

/-- The `class_path` accumulator of `create_launch_jar`: `"Class-Path: "`
followed by each slash-normalized relative path and a trailing space. -/
def class_path (relPaths : List (List Char)) : List Char :=
  "Class-Path: ".data ++ (relPaths.map (fun p => backslashToSlash p ++ [' '])).flatten

/-- `str::trim_end` (here restricted to ASCII whitespace, the only kind the
assembled class-path string can end with). -/
def trimEndWsp (l : List Char) : List Char :=
  (l.reverse.dropWhile isAsciiWsp).reverse

/-- The two generated manifest lines: the wrapped Class-Path line and the
wrapped Minecraft-Version line, each `writeln!`-terminated with `"\r\n"`. -/
def generatedManifestTail (relPaths : List (List Char)) (id : List Char) : List Char :=
  wrap_manifest_line (trimEndWsp (class_path relPaths)) ++
    '\r' :: '\n' ::
      (wrap_manifest_line ("Minecraft-Version: ".data ++ id ++ ['\r']) ++ ['\r', '\n'])

/-- The full `META-INF/MANIFEST.MF` bytes written by `create_launch_jar`:
the collapsed template text followed by the generated tail. -/
def manifestEntryBytes (mf : List Char) (relPaths : List (List Char))
    (id : List Char) : List Char :=
  collapseNRN mf ++ generatedManifestTail relPaths id

theorem headI_mem {α : Type} [Inhabited α] {L : List α} (h : L ≠ []) : L.headI ∈ L := by
  cases L with
  | nil => exact absurd rfl h
  | cons a as => simp

/-- Like `wrapGo_split`, but for arbitrary input characters and physical
lines (maximal CR/LF-free runs): no physical line of the wrapped output
exceeds 72 characters. -/
theorem wrapGo_runs (l : List Char) :
    ∀ n : Nat, n ≤ 71 →
      (runs (wrapGo l n)).headI.length + n ≤ 72 ∧
      (∀ s ∈ runs (wrapGo l n), s.length ≤ 72) := by
  induction l with
  | nil =>
    intro n hn
    constructor
    · simp [wrapGo]; omega
    · intro s hs; simp [wrapGo] at hs; simp [hs]
  | cons c cs ih =>
    intro n hn
    by_cases h72 : n + 1 = 72
    · have hw : wrapGo (c :: cs) n = c :: '\r' :: '\n' :: ' ' :: wrapGo cs 1 := by
        rw [wrapGo]; simp [h72]
      obtain ⟨ih1, ih2⟩ := ih 1 (by omega)
      have hm : runs ('\r' :: '\n' :: ' ' :: wrapGo cs 1) =
          [] :: [] :: (' ' :: (runs (wrapGo cs 1)).headI) :: (runs (wrapGo cs 1)).tail := by
        rw [runs_break _ _ (by decide), runs_break _ _ (by decide),
          runs_cons_ne _ _ (by decide)]
      have htail : ∀ s ∈ (runs (wrapGo cs 1)).tail, s.length ≤ 72 :=
        fun s hs => ih2 s (List.mem_of_mem_tail hs)
      cases hc : isBreakChar c with
      | true =>
        have hr : runs (wrapGo (c :: cs) n) =
            [] :: [] :: [] :: (' ' :: (runs (wrapGo cs 1)).headI) ::
              (runs (wrapGo cs 1)).tail := by
          rw [hw, runs_break _ _ hc, hm]
        constructor
        · rw [hr]; simp; omega
        · intro s hs
          rw [hr] at hs
          simp only [List.mem_cons] at hs
          rcases hs with h | h | h | h | h
          · simp [h]
          · simp [h]
          · simp [h]
          · simp [h]; omega
          · exact htail s h
      | false =>
        have hr : runs (wrapGo (c :: cs) n) =
            [c] :: [] :: (' ' :: (runs (wrapGo cs 1)).headI) ::
              (runs (wrapGo cs 1)).tail := by
          rw [hw, runs_cons_ne _ _ hc, hm]
          simp
        constructor
        · rw [hr]; simp; omega
        · intro s hs
          rw [hr] at hs
          simp only [List.mem_cons] at hs
          rcases hs with h | h | h | h
          · simp [h]
          · simp [h]
          · simp [h]; omega
          · exact htail s h
    · have hw : wrapGo (c :: cs) n = c :: wrapGo cs (n + 1) := by
        rw [wrapGo]; simp [h72]
      obtain ⟨ih1, ih2⟩ := ih (n + 1) (by omega)
      have htail : ∀ s ∈ (runs (wrapGo cs (n + 1))).tail, s.length ≤ 72 :=
        fun s hs => ih2 s (List.mem_of_mem_tail hs)
      cases hc : isBreakChar c with
      | true =>
        have hr : runs (wrapGo (c :: cs) n) = [] :: runs (wrapGo cs (n + 1)) := by
          rw [hw, runs_break _ _ hc]
        constructor
        · rw [hr]; simp; omega
        · intro s hs
          rw [hr] at hs
          rcases List.mem_cons.mp hs with h | h
          · simp [h]
          · exact ih2 s h
      | false =>
        have hr : runs (wrapGo (c :: cs) n) =
            (c :: (runs (wrapGo cs (n + 1))).headI) :: (runs (wrapGo cs (n + 1))).tail := by
          rw [hw, runs_cons_ne _ _ hc]
        constructor
        · rw [hr]; simp; omega
        · intro s hs
          rw [hr] at hs
          rcases List.mem_cons.mp hs with h | h
          · simp [h]; omega
          · exact htail s h

/-- Physical lines of the output of `wrap_manifest_line` never exceed 72
characters, whatever the input. -/
theorem wrap_manifest_line_runs_le (line : List Char) :
    ∀ s ∈ runs (wrap_manifest_line line), s.length ≤ 72 :=
  (wrapGo_runs line 0 (by omega)).2

/-- A CR character ends the current physical line:
`runs (x ++ '\r' :: y) = runs x ++ runs y`. -/
theorem runs_append_cr (x y : List Char) :
    runs (x ++ '\r' :: y) = runs x ++ runs y := by
  induction x with
  | nil => rw [List.nil_append, runs_break _ _ (by decide)]; simp
  | cons c x' ih =>
    cases hc : isBreakChar c with
    | true =>
      rw [List.cons_append, runs_break _ _ hc, runs_break _ _ hc, ih]
      simp
    | false =>
      rw [List.cons_append, runs_cons_ne _ _ hc, runs_cons_ne _ _ hc, ih]
      cases h' : runs x' with
      | nil => exact absurd h' (runs_ne_nil x')
      | cons a as => simp

set_option maxRecDepth 8000 in
/-- C2 counterexample input: a template manifest that is a single 100
character line.  The code copies the collapsed preamble verbatim, without
line wrapping, so the output contains a physical line longer than 72
characters: the claim "every manifest line — the preamble lines as well as
the two generated lines — is wrapped at a maximum of 72 characters" fails. -/
theorem manifest_preamble_not_wrapped :
    ¬ (∀ s ∈ runs (manifestEntryBytes (List.replicate 100 'a') [] ['1']),
        s.length ≤ 72) := by
  decide

/-- C2 (amended): the manifest bytes are exactly the template text with
every `"\n\r\n"` collapsed to `"\n"`, copied verbatim (not wrapped),
followed by the generated Class-Path and Minecraft-Version lines; the two
generated lines are wrapped so that none of their physical lines exceeds
72 characters. -/
theorem manifestEntryBytes_spec (mf : List Char) (relPaths : List (List Char))
    (id : List Char) :
    manifestEntryBytes mf relPaths id =
      collapseNRN mf ++ generatedManifestTail relPaths id ∧
    ∀ s ∈ runs (generatedManifestTail relPaths id), s.length ≤ 72 := by
  refine ⟨rfl, ?_⟩
  intro s hs
  have hdecomp : generatedManifestTail relPaths id =
      wrap_manifest_line (trimEndWsp (class_path relPaths)) ++
        '\r' :: ('\n' ::
          (wrap_manifest_line ("Minecraft-Version: ".data ++ id ++ ['\r']) ++
            '\r' :: ['\n'])) := by
    simp [generatedManifestTail]
  rw [hdecomp, runs_append_cr, runs_break _ _ (by decide), runs_append_cr] at hs
  simp only [List.mem_append, List.mem_cons] at hs
  rcases hs with h | h | h
  · exact wrap_manifest_line_runs_le _ s h
  · simp [h]
  · rcases h with h | h
    · exact wrap_manifest_line_runs_le _ s h
    · have : runs ['\n'] = [[], []] := by decide
      rw [this] at h
      simp only [List.mem_cons] at h
      rcases h with h | h | h <;> simp_all

/-! ## Maven coordinate splitting

`split_artifact` (src/actions/server.rs, lines 367-374):

```rust
fn split_artifact(artifact: &str) -> String {
    let parts = artifact.splitn(3, ":").collect::<Vec<&str>>();
    let group = parts.get(0).unwrap().replace(".", "/");
    let name = parts.get(1).unwrap();
    let version = parts.get(2).unwrap();
    group + "/" + name + "/" + version + "/" + name + "-" + version + ".jar"
}
```

The `.unwrap()` calls panic when the coordinate has fewer than two `':'`
separators; panics are modelled by `Option` (`none` = panic).
-/

/-- `str::replace(".", "/")` on the group segment. -/
def dotToSlash (l : List Char) : List Char :=
  l.map (fun c => if c = '.' then '/' else c)

/-- The part of a string before its first `':'`, and (when a `':'` exists)
the part after it: one splitting step of Rust's `str::splitn(_, ":")`. -/
def splitFirstColon : List Char → List Char × Option (List Char)
  | [] => ([], none)
  | c :: rest =>
    if c = ':' then ([], some rest)
    else
      let (a, r) := splitFirstColon rest
      (c :: a, r)

/-- Rust `str::splitn(3, ":")`: at most three parts, the third one keeping
any remaining separators verbatim. -/
def splitn3Colon (l : List Char) : List (List Char) :=
  match splitFirstColon l with
  | (a, none) => [a]
  | (a, some r1) =>
    match splitFirstColon r1 with
    | (b, none) => [a, b]
    | (b, some r2) => [a, b, r2]

/-- `split_artifact` from `src/actions/server.rs`; `none` models a panic of
one of the `unwrap()` calls. -/
def split_artifact (artifact : List Char) : Option (List Char) :=
  let parts := splitn3Colon artifact
  match parts[0]?, parts[1]?, parts[2]? with
  | some group, some name, some version =>
    some (dotToSlash group ++ '/' :: name ++ '/' :: version ++ '/' :: name ++
      '-' :: version ++ ".jar".data)
  | _, _, _ => none

/-! The extra-library coordinate splitting of the instance-package
installer (`src/actions/mmc_pack.rs`, lines 168-180):

```rust
let colons = library.name.char_indices().filter(|c| c.1 == ':').map(|c| c.0);
let index = colons.clone().last().unwrap();
let uid = library.name.get(0..index).unwrap().replace(":", ".");
let lib_name = library.name
    .get((colons.clone().next().unwrap() + 1)..colons.clone().last().unwrap()).unwrap();
let version = library.name.get((colons.last().unwrap() + 1)..).unwrap();
```
-/

/-- The positions of every `':'` in a string, starting the count at `i`
(`char_indices().filter(|c| c.1 == ':').map(|c| c.0)`). -/
def colonIndices : List Char → Nat → List Nat
  | [], _ => []
  | c :: rest, i =>
    if c = ':' then i :: colonIndices rest (i + 1) else colonIndices rest (i + 1)

/-- Rust `str::get(s..e)`: `none` when the range is invalid. -/
def strGet (l : List Char) (s e : Nat) : Option (List Char) :=
  if s ≤ e ∧ e ≤ l.length then some ((l.drop s).take (e - s)) else none

/-- The `(uid, lib_name, version)` triple the instance-package installer
derives from an extra-library coordinate; `none` models a panicking
`unwrap()`. -/
def mmc_lib_parts (name : List Char) : Option (List Char × List Char × List Char) :=
  let colons := colonIndices name 0
  match colons.getLast? with
  | none => none
  | some index =>
    match strGet name 0 index with
    | none => none
    | some uidRaw =>
      let uid := uidRaw.map (fun c => if c = ':' then '.' else c)
      match colons.head? with
      | none => none
      | some first =>
        match strGet name (first + 1) index with
        | none => none
        | some lib_name =>
          some (uid, lib_name, name.drop (index + 1))

/-! ### `splitn3Colon` on well- and ill-formed coordinates -/

theorem splitFirstColon_no (s : List Char) (h : ':' ∉ s) :
    splitFirstColon s = (s, none) := by
  induction s with
  | nil => rfl
  | cons c rest ih =>
    have hc : c ≠ ':' := fun he => h (by simp [he])
    have hr : ':' ∉ rest := fun hm => h (by simp [hm])
    rw [splitFirstColon, if_neg hc, ih hr]

theorem splitFirstColon_app (x y : List Char) (hx : ':' ∉ x) :
    splitFirstColon (x ++ ':' :: y) = (x, some y) := by
  induction x with
  | nil => rw [List.nil_append, splitFirstColon, if_pos rfl]
  | cons c rest ih =>
    have hc : c ≠ ':' := fun he => hx (by simp [he])
    have hr : ':' ∉ rest := fun hm => hx (by simp [hm])
    rw [List.cons_append, splitFirstColon, if_neg hc, ih hr]

theorem splitn3Colon_no_colon (s : List Char) (h : ':' ∉ s) :
    splitn3Colon s = [s] := by
  rw [splitn3Colon, splitFirstColon_no s h]

theorem splitn3Colon_one_colon (x y : List Char) (hx : ':' ∉ x) (hy : ':' ∉ y) :
    splitn3Colon (x ++ ':' :: y) = [x, y] := by
  rw [splitn3Colon, splitFirstColon_app x y hx]
  simp only [splitFirstColon_no y hy]

theorem splitn3Colon_two_colons (g a v : List Char) (hg : ':' ∉ g) (ha : ':' ∉ a) :
    splitn3Colon (g ++ ':' :: a ++ ':' :: v) = [g, a, v] := by
  have hassoc : g ++ ':' :: a ++ ':' :: v = g ++ ':' :: (a ++ ':' :: v) := by simp
  rw [splitn3Colon, hassoc, splitFirstColon_app g (a ++ ':' :: v) hg]
  simp only [splitFirstColon_app a v ha]

/-! ### Cancellation of slash-separated suffixes (for injectivity) -/

theorem append_slash_cancel (x : List Char) :
    ∀ u y w : List Char, '/' ∉ x → '/' ∉ u →
      x ++ '/' :: y = u ++ '/' :: w → x = u ∧ y = w := by
  induction x with
  | nil =>
    intro u y w _ hu h
    cases u with
    | nil =>
      simp only [List.nil_append] at h
      injection h with h1 h2
      exact ⟨rfl, h2⟩
    | cons d u' =>
      simp only [List.nil_append, List.cons_append] at h
      injection h with h1 h2
      simp [← h1] at hu
  | cons c x' ih =>
    intro u y w hx hu h
    cases u with
    | nil =>
      simp only [List.cons_append, List.nil_append] at h
      injection h with h1 h2
      simp [h1] at hx
    | cons d u' =>
      simp only [List.cons_append] at h
      injection h with h1 h2
      have hx' : '/' ∉ x' := fun hm => hx (List.mem_cons_of_mem _ hm)
      have hu' : '/' ∉ u' := fun hm => hu (List.mem_cons_of_mem _ hm)
      obtain ⟨e1, e2⟩ := ih u' y w hx' hu' h2
      exact ⟨by rw [h1, e1], e2⟩

/-- If the parts after the final `'/'` are slash-free, a slash-separated
concatenation determines both halves. -/
theorem last_slash_cancel (x u y w : List Char) (hy : '/' ∉ y) (hw : '/' ∉ w)
    (h : x ++ '/' :: y = u ++ '/' :: w) : x = u ∧ y = w := by
  have hrev : y.reverse ++ '/' :: x.reverse = w.reverse ++ '/' :: u.reverse := by
    have h' := congrArg List.reverse h
    simpa [List.reverse_append] using h'
  have hym : '/' ∉ y.reverse := by simpa using hy
  have hwm : '/' ∉ w.reverse := by simpa using hw
  obtain ⟨h1, h2⟩ := append_slash_cancel _ _ _ _ hym hwm hrev
  constructor
  · have := congrArg List.reverse h2
    simpa using this
  · have := congrArg List.reverse h1
    simpa using this

theorem dotToSlash_inj (g1 : List Char) :
    ∀ g2 : List Char, '/' ∉ g1 → '/' ∉ g2 →
      dotToSlash g1 = dotToSlash g2 → g1 = g2 := by
  induction g1 with
  | nil =>
    intro g2 _ _ h
    cases g2 with
    | nil => rfl
    | cons d r2 => simp [dotToSlash] at h
  | cons c r1 ih =>
    intro g2 h1 h2 h
    cases g2 with
    | nil => simp [dotToSlash] at h
    | cons d r2 =>
      simp only [dotToSlash, List.map_cons] at h
      injection h with hc hr
      have hc1 : c ≠ '/' := fun he => by simp [he] at h1
      have hd1 : d ≠ '/' := fun he => by simp [he] at h2
      have hcd : c = d := by
        by_cases hcdot : c = '.'
        · by_cases hddot : d = '.'
          · rw [hcdot, hddot]
          · rw [if_pos hcdot, if_neg hddot] at hc
            exact absurd hc.symm hd1
        · by_cases hddot : d = '.'
          · rw [if_neg hcdot, if_pos hddot] at hc
            exact absurd hc hc1
          · rw [if_neg hcdot, if_neg hddot] at hc
            exact hc
      have h1' : '/' ∉ r1 := fun hm => h1 (List.mem_cons_of_mem _ hm)
      have h2' : '/' ∉ r2 := fun hm => h2 (List.mem_cons_of_mem _ hm)
      rw [hcd, ih r2 h1' h2' hr]

/-- C9: on a well-formed 3-part coordinate `group:artifact:version` (the
parts free of `':'` and `'/'`), `split_artifact` returns exactly
`group/artifact/version/artifact-version.jar` with dots of the group
replaced by slashes, and the mapping is injective on such coordinates. -/
theorem split_artifact_spec (g a v : List Char)
    (hgc : ':' ∉ g) (hac : ':' ∉ a) (_hvc : ':' ∉ v)
    (hgs : '/' ∉ g) (has : '/' ∉ a) (hvs : '/' ∉ v) :
    split_artifact (g ++ ':' :: a ++ ':' :: v) =
      some (dotToSlash g ++ '/' :: a ++ '/' :: v ++ '/' :: a ++ '-' :: v ++
        ".jar".data) ∧
    ∀ g2 a2 v2 : List Char, ':' ∉ g2 → ':' ∉ a2 → ':' ∉ v2 →
      '/' ∉ g2 → '/' ∉ a2 → '/' ∉ v2 →
      split_artifact (g ++ ':' :: a ++ ':' :: v) =
        split_artifact (g2 ++ ':' :: a2 ++ ':' :: v2) →
      g = g2 ∧ a = a2 ∧ v = v2 := by
  have heval : ∀ G A V : List Char, ':' ∉ G → ':' ∉ A →
      split_artifact (G ++ ':' :: A ++ ':' :: V) =
        some (dotToSlash G ++ '/' :: A ++ '/' :: V ++ '/' :: A ++ '-' :: V ++
          ".jar".data) := by
    intro G A V hG hA
    rw [split_artifact, splitn3Colon_two_colons G A V hG hA]
    simp
  refine ⟨heval g a v hgc hac, ?_⟩
  intro g2 a2 v2 hgc2 hac2 hvc2 hgs2 has2 hvs2 heq
  rw [heval g a v hgc hac, heval g2 a2 v2 hgc2 hac2] at heq
  injection heq with hP
  have hgroupn : ∀ G A V : List Char,
      G ++ '/' :: A ++ '/' :: V ++ '/' :: A ++ '-' :: V ++ ".jar".data =
        (G ++ '/' :: A ++ '/' :: V) ++ '/' :: (A ++ '-' :: V ++ ".jar".data) := by
    intro G A V; simp
  rw [hgroupn, hgroupn] at hP
  have htails : ∀ A V : List Char, '/' ∉ A → '/' ∉ V →
      '/' ∉ A ++ '-' :: V ++ ".jar".data := by
    intro A V hA hV hm
    rcases List.mem_append.mp hm with h | h
    · rcases List.mem_append.mp h with h | h
      · exact hA h
      · rcases List.mem_cons.mp h with h | h
        · exact absurd h (by decide)
        · exact hV h
    · exact absurd h (by decide)
  obtain ⟨hX, _⟩ :=
    last_slash_cancel _ _ _ _ (htails a v has hvs) (htails a2 v2 has2 hvs2) hP
  have hgroupn2 : ∀ G A V : List Char,
      G ++ '/' :: A ++ '/' :: V = (G ++ '/' :: A) ++ '/' :: V := by
    intro G A V; simp
  rw [hgroupn2, hgroupn2] at hX
  obtain ⟨hY, hveq⟩ := last_slash_cancel _ _ _ _ hvs hvs2 hX
  obtain ⟨hG, haeq⟩ := last_slash_cancel _ _ _ _ has has2 hY
  exact ⟨dotToSlash_inj g g2 hgs hgs2 hG, haeq, hveq⟩

/-- C9 witness: the coordinate `"g.h:a:v"` maps to `"g/h/a/v/a-v.jar"`. -/
theorem split_artifact_spec_witness :
    (':' ∉ "g.h".data ∧ ':' ∉ (['a'] : List Char) ∧ ':' ∉ (['v'] : List Char) ∧
      '/' ∉ "g.h".data ∧ '/' ∉ (['a'] : List Char) ∧ '/' ∉ (['v'] : List Char)) ∧
    (split_artifact ("g.h".data ++ ':' :: ['a'] ++ ':' :: ['v']) =
      some (dotToSlash "g.h".data ++ '/' :: ['a'] ++ '/' :: ['v'] ++ '/' :: ['a'] ++
        '-' :: ['v'] ++ ".jar".data) ∧
    ∀ g2 a2 v2 : List Char, ':' ∉ g2 → ':' ∉ a2 → ':' ∉ v2 →
      '/' ∉ g2 → '/' ∉ a2 → '/' ∉ v2 →
      split_artifact ("g.h".data ++ ':' :: ['a'] ++ ':' :: ['v']) =
        split_artifact (g2 ++ ':' :: a2 ++ ':' :: v2) →
      "g.h".data = g2 ∧ ['a'] = a2 ∧ ['v'] = v2) :=
  ⟨by decide,
    split_artifact_spec "g.h".data ['a'] ['v'] (by decide) (by decide) (by decide)
      (by decide) (by decide) (by decide)⟩

/-! ### C10: partiality of the coordinate-splitting helpers -/

theorem colonIndices_nil_of_no_colon (s : List Char) (h : ':' ∉ s) :
    ∀ i : Nat, colonIndices s i = [] := by
  induction s with
  | nil => intro i; rfl
  | cons c rest ih =>
    intro i
    have hc : c ≠ ':' := fun he => h (by simp [he])
    have hr : ':' ∉ rest := fun hm => h (by simp [hm])
    rw [colonIndices, if_neg hc, ih hr]

/-- C10: the coordinate-splitting helpers are partial.  `split_artifact`
panics (returns `none`) on a coordinate with no `':'` and on one with a
single `':'`; the instance-package `(uid, lib_name, version)` derivation
panics on a coordinate with no `':'`; and on a well-formed
`group:artifact:version` shape `split_artifact` succeeds. -/
theorem coordinate_split_partiality :
    (∀ s : List Char, ':' ∉ s → split_artifact s = none) ∧
    (∀ x y : List Char, ':' ∉ x → ':' ∉ y →
      split_artifact (x ++ ':' :: y) = none) ∧
    (∀ s : List Char, ':' ∉ s → mmc_lib_parts s = none) ∧
    (∀ g a v : List Char, ':' ∉ g → ':' ∉ a →
      (split_artifact (g ++ ':' :: a ++ ':' :: v)).isSome = true) := by
  refine ⟨?_, ?_, ?_, ?_⟩
  · intro s h
    rw [split_artifact, splitn3Colon_no_colon s h]
    simp
  · intro x y hx hy
    rw [split_artifact, splitn3Colon_one_colon x y hx hy]
    simp
  · intro s h
    rw [mmc_lib_parts, colonIndices_nil_of_no_colon s h 0]
    rfl
  · intro g a v hg ha
    rw [split_artifact, splitn3Colon_two_colons g a v hg ha]
    simp

/-- C10 witness: concrete ill-formed coordinates `"a"`, `"a:b"`, and the
well-formed `"g:a:v"`. -/
theorem coordinate_split_partiality_witness :
    (':' ∉ (['a'] : List Char) ∧ split_artifact ['a'] = none) ∧
    (':' ∉ (['a'] : List Char) ∧ ':' ∉ (['b'] : List Char) ∧
      split_artifact (['a'] ++ ':' :: ['b']) = none) ∧
    (':' ∉ (['x'] : List Char) ∧ mmc_lib_parts ['x'] = none) ∧
    (':' ∉ (['g'] : List Char) ∧ ':' ∉ (['a'] : List Char) ∧
      (split_artifact (['g'] ++ ':' :: ['a'] ++ ':' :: ['v'])).isSome = true) :=
  ⟨⟨by decide, coordinate_split_partiality.1 ['a'] (by decide)⟩,
    ⟨by decide, by decide,
      coordinate_split_partiality.2.1 ['a'] ['b'] (by decide) (by decide)⟩,
    ⟨by decide, coordinate_split_partiality.2.2.1 ['x'] (by decide)⟩,
    ⟨by decide, by decide,
      coordinate_split_partiality.2.2.2 ['g'] ['a'] ['v'] (by decide) (by decide)⟩⟩

/-! ## JSON values and the recursive manifest merge
(src/net/manifest.rs, lines 64-86)

```rust
fn build_version_json_from_manifest(
    version_json: &mut Map<String, Value>,
    manifest: &Map<String, Value>,
) {
    for entry in manifest {
        if version_json.contains_key(entry.0) {
            let version_json_element = version_json.get_mut(entry.0).unwrap();
            let manifest_element = entry.1;
            if version_json_element != manifest_element
                && version_json_element.is_object()
                && manifest_element.is_object()
            {
                build_version_json_from_manifest(
                    version_json_element.as_object_mut().unwrap(),
                    manifest_element.as_object().unwrap(),
                );
            }
        } else {
            version_json.insert(entry.0.to_string(), entry.1.clone());
        }
    }
}
```

`serde_json::Value` is modelled by `Json`; objects are association lists
(the claims are stated through `lookupKey`, making them valid for either
map representation of serde_json).  `mergeEntries base overlay` is the loop
over `manifest` (= overlay), `mergeOne` one loop iteration.
-/

inductive Json where
  | null
  | bool (b : Bool)
  | num (n : Int)
  | str (s : String)
  | arr (xs : List Json)
  | obj (o : List (String × Json))

mutual
def beqJ : Json → Json → Bool
  | Json.null, Json.null => true
  | Json.bool a, Json.bool b => a == b
  | Json.num a, Json.num b => a == b
  | Json.str a, Json.str b => a == b
  | Json.arr a, Json.arr b => beqL a b
  | Json.obj a, Json.obj b => beqO a b
  | _, _ => false

def beqL : List Json → List Json → Bool
  | [], [] => true
  | x :: xs, y :: ys => beqJ x y && beqL xs ys
  | _, _ => false

def beqO : List (String × Json) → List (String × Json) → Bool
  | [], [] => true
  | (k1, v1) :: xs, (k2, v2) :: ys => k1 == k2 && beqJ v1 v2 && beqO xs ys
  | _, _ => false
end

mutual
theorem beqJ_iff : ∀ a b : Json, beqJ a b = true ↔ a = b
  | a, b => by
    cases a <;> cases b <;>
      simp only [beqJ, beq_iff_eq, Json.bool.injEq, Json.num.injEq,
        Json.str.injEq, Json.arr.injEq, Json.obj.injEq, Bool.false_eq_true,
        iff_self] <;>
      first
        | rfl
        | simp
        | (rename_i x y; exact beqL_iff x y)
        | (rename_i x y; exact beqO_iff x y)
termination_by a => sizeOf a

theorem beqL_iff : ∀ xs ys : List Json, beqL xs ys = true ↔ xs = ys
  | xs, ys => by
    cases xs with
    | nil => cases ys <;> simp [beqL]
    | cons x xs' =>
      cases ys with
      | nil => simp [beqL]
      | cons y ys' =>
        simp only [beqL, Bool.and_eq_true, List.cons.injEq]
        rw [beqJ_iff x y, beqL_iff xs' ys']
termination_by xs => sizeOf xs

theorem beqO_iff : ∀ os ps : List (String × Json), beqO os ps = true ↔ os = ps
  | os, ps => by
    cases os with
    | nil => cases ps <;> simp [beqO]
    | cons e os' =>
      cases ps with
      | nil => cases e; simp [beqO]
      | cons f ps' =>
        cases e with
        | mk k1 v1 =>
          cases f with
          | mk k2 v2 =>
            simp only [beqO, Bool.and_eq_true, List.cons.injEq, Prod.mk.injEq,
              beq_iff_eq]
            rw [beqJ_iff v1 v2, beqO_iff os' ps']
termination_by os => sizeOf os
end

instance : DecidableEq Json := fun a b => decidable_of_iff _ (beqJ_iff a b)

/-- `serde_json::Value::is_object`. -/
def Json.isObj : Json → Bool
  | Json.obj _ => true
  | _ => false

/-- `Map::get` on an association-list object (first binding wins). -/
def lookupKey (k : String) : List (String × Json) → Option Json
  | [] => none
  | (k', v) :: rest => if k' = k then some v else lookupKey k rest

/-- `Map::contains_key`. -/
def containsKey (k : String) : List (String × Json) → Bool
  | [] => false
  | (k', _) :: rest => k' = k || containsKey k rest

/-- Replace the value of an existing binding (in-place mutation through
`get_mut`); a missing key leaves the object unchanged. -/
def setKey (k : String) (v : Json) : List (String × Json) → List (String × Json)
  | [] => []
  | (k', v') :: rest =>
    if k' = k then (k', v) :: rest else (k', v') :: setKey k v rest

mutual
/-- `build_version_json_from_manifest` from `src/net/manifest.rs`: the loop
over the overlay's entries, threading the mutated base. -/
def mergeEntries (base : List (String × Json)) :
    List (String × Json) → List (String × Json)
  | [] => base
  | (k, v) :: rest => mergeEntries (mergeOne base k v) rest

/-- One iteration of the merge loop: insert an absent key, recurse when
both sides hold unequal objects, otherwise leave the base untouched. -/
def mergeOne (base : List (String × Json)) (k : String) (v : Json) :
    List (String × Json) :=
  match lookupKey k base, v with
  | none, v => base ++ [(k, v)]
  | some (Json.obj bo), Json.obj vo =>
    if Json.obj bo = Json.obj vo then base
    else setKey k (Json.obj (mergeEntries bo vo)) base
  | some _, _ => base
end

mutual
/-- Well-formed JSON: every object (reachable through objects) has
pairwise-distinct keys — the invariant `serde_json` maps always satisfy. -/
def wfJ : Json → Bool
  | Json.obj o => wfO o
  | _ => true

def wfO : List (String × Json) → Bool
  | [] => true
  | (k, v) :: rest => !(containsKey k rest) && wfJ v && wfO rest
end

/-! ### lookup/setKey lemmas -/

theorem mergeEntries_nil (base : List (String × Json)) :
    mergeEntries base [] = base := rfl

theorem mergeEntries_cons (base : List (String × Json)) (k : String) (v : Json)
    (rest : List (String × Json)) :
    mergeEntries base ((k, v) :: rest) = mergeEntries (mergeOne base k v) rest := rfl

theorem lookup_append_of_none (k : String) (l m : List (String × Json))
    (h : lookupKey k l = none) : lookupKey k (l ++ m) = lookupKey k m := by
  induction l with
  | nil => rfl
  | cons e rest ih =>
    rcases e with ⟨k', v'⟩
    rw [lookupKey] at h
    rw [List.cons_append, lookupKey]
    by_cases hk : k' = k
    · rw [if_pos hk] at h; exact absurd h (by simp)
    · rw [if_neg hk] at h ⊢; exact ih h

theorem lookup_append_of_some (k : String) (l m : List (String × Json)) (v : Json)
    (h : lookupKey k l = some v) : lookupKey k (l ++ m) = some v := by
  induction l with
  | nil => simp [lookupKey] at h
  | cons e rest ih =>
    rcases e with ⟨k', v'⟩
    rw [lookupKey] at h
    rw [List.cons_append, lookupKey]
    by_cases hk : k' = k
    · rw [if_pos hk] at h ⊢; exact h
    · rw [if_neg hk] at h ⊢; exact ih h

theorem lookup_setKey_ne (k k' : String) (v : Json) (l : List (String × Json))
    (h : k ≠ k') : lookupKey k (setKey k' v l) = lookupKey k l := by
  induction l with
  | nil => rfl
  | cons e rest ih =>
    rcases e with ⟨k'', v''⟩
    rw [setKey]
    by_cases hk : k'' = k'
    · rw [if_pos hk, lookupKey, lookupKey, if_neg (hk ▸ fun he => h (he.symm ▸ rfl)),
        if_neg (hk ▸ fun he => h (he.symm ▸ rfl))]
    · rw [if_neg hk, lookupKey, lookupKey]
      by_cases hk2 : k'' = k
      · rw [if_pos hk2, if_pos hk2]
      · rw [if_neg hk2, if_neg hk2]; exact ih

theorem lookup_setKey_eq (k : String) (v bv : Json) (l : List (String × Json))
    (h : lookupKey k l = some bv) : lookupKey k (setKey k v l) = some v := by
  induction l with
  | nil => simp [lookupKey] at h
  | cons e rest ih =>
    rcases e with ⟨k', v'⟩
    rw [lookupKey] at h
    rw [setKey]
    by_cases hk : k' = k
    · rw [if_pos hk, lookupKey, if_pos hk]
    · rw [if_neg hk] at h
      rw [if_neg hk, lookupKey, if_neg hk]
      exact ih h

theorem setKey_self (k : String) (v : Json) (l : List (String × Json))
    (h : lookupKey k l = some v) : setKey k v l = l := by
  induction l with
  | nil => rfl
  | cons e rest ih =>
    rcases e with ⟨k', v'⟩
    rw [lookupKey] at h
    rw [setKey]
    by_cases hk : k' = k
    · rw [if_pos hk] at h ⊢
      injection h with h
      rw [h]
    · rw [if_neg hk] at h ⊢
      rw [ih h]

/-! ### `mergeOne` case lemmas -/

theorem mergeOne_insert (base : List (String × Json)) (k : String) (v : Json)
    (h : lookupKey k base = none) : mergeOne base k v = base ++ [(k, v)] := by
  unfold mergeOne
  rw [h]

theorem mergeOne_self (base : List (String × Json)) (k : String) (v : Json)
    (h : lookupKey k base = some v) : mergeOne base k v = base := by
  unfold mergeOne
  rw [h]
  cases v <;> simp

theorem mergeOne_not_both_obj (base : List (String × Json)) (k : String)
    (v bv : Json) (h : lookupKey k base = some bv)
    (hshape : bv.isObj = false ∨ v.isObj = false) : mergeOne base k v = base := by
  unfold mergeOne
  rw [h]
  rcases hshape with hs | hs <;> cases bv <;> cases v <;>
    first
      | rfl
      | (simp [Json.isObj] at hs)

theorem mergeOne_recurse (base : List (String × Json)) (k : String)
    (bo vo : List (String × Json)) (h : lookupKey k base = some (Json.obj bo))
    (hne : Json.obj bo ≠ Json.obj vo) :
    mergeOne base k (Json.obj vo) =
      setKey k (Json.obj (mergeEntries bo vo)) base := by
  unfold mergeOne
  rw [h]
  show (if Json.obj bo = Json.obj vo then base
    else setKey k (Json.obj (mergeEntries bo vo)) base) = _
  rw [if_neg hne]

theorem mergeOne_lookup_ne (base : List (String × Json)) (k' : String) (v' : Json)
    (k : String) (h : k ≠ k') :
    lookupKey k (mergeOne base k' v') = lookupKey k base := by
  unfold mergeOne
  cases hl : lookupKey k' base with
  | none =>
    cases hk : lookupKey k base with
    | none =>
      rw [lookup_append_of_none k base [(k', v')] hk]
      simp [lookupKey, Ne.symm h]
    | some v =>
      rw [lookup_append_of_some k base [(k', v')] v hk]
  | some bv =>
    cases bv <;> cases v' <;>
      first
        | rfl
        | (show lookupKey k (if _ = _ then base else setKey k' _ base) = _
           split
           · rfl
           · exact lookup_setKey_ne k k' _ base h)

theorem mergeOne_isSome (base : List (String × Json)) (k' : String) (v' : Json)
    (k : String) (h : (lookupKey k base).isSome = true) :
    (lookupKey k (mergeOne base k' v')).isSome = true := by
  by_cases hk : k = k'
  · subst hk
    obtain ⟨bv, hbv⟩ := Option.isSome_iff_exists.mp h
    unfold mergeOne
    rw [hbv]
    cases bv <;> cases v' <;>
      first
        | (rw [hbv]; simp)
        | (show (lookupKey k (if _ = _ then base else setKey k _ base)).isSome = true
           split
           · rw [hbv]; simp
           · rw [lookup_setKey_eq k _ _ base hbv]; simp)
  · rw [mergeOne_lookup_ne base k' v' k hk]
    exact h

/-- Merging entries whose keys all differ from `k` leaves the value at `k`
untouched. -/
theorem lookup_mergeEntries_stable :
    ∀ (overlay base : List (String × Json)) (k : String),
      containsKey k overlay = false →
      lookupKey k (mergeEntries base overlay) = lookupKey k base := by
  intro overlay
  induction overlay with
  | nil => intro base k _; rfl
  | cons e rest ih =>
    rcases e with ⟨k', v'⟩
    intro base k hc
    rw [containsKey, Bool.or_eq_false_iff] at hc
    rw [mergeEntries_cons, ih (mergeOne base k' v') k hc.2,
      mergeOne_lookup_ne base k' v' k (fun he => by simp [he] at hc)]

theorem isObj_iff {x : Json} : x.isObj = true ↔ ∃ o, x = Json.obj o := by
  cases x <;> simp [Json.isObj]

/-- C3: the manifest merge never deletes a key present in base and never
overwrites a scalar (non-object) base value, whatever the overlay holds. -/
theorem merge_preserves_base_leaves :
    ∀ (overlay base : List (String × Json)) (k : String),
      (∀ v : Json, lookupKey k base = some v → v.isObj = false →
        lookupKey k (mergeEntries base overlay) = some v) ∧
      ((lookupKey k base).isSome = true →
        (lookupKey k (mergeEntries base overlay)).isSome = true) := by
  intro overlay
  induction overlay with
  | nil => exact fun base k => ⟨fun v h _ => h, fun h => h⟩
  | cons e rest ih =>
    rcases e with ⟨k', v'⟩
    intro base k
    constructor
    · intro v h hno
      rw [mergeEntries_cons]
      refine (ih (mergeOne base k' v') k).1 v ?_ hno
      by_cases hk : k = k'
      · subst hk
        rw [mergeOne_not_both_obj base k v' v h (Or.inl hno)]
        exact h
      · rw [mergeOne_lookup_ne base k' v' k hk]
        exact h
    · intro h
      rw [mergeEntries_cons]
      exact (ih _ k).2 (mergeOne_isSome base k' v' k h)

/-- C3 witness: base `{"a": 1}`, overlay `{"a": "x", "b": 2}` — the scalar
at `"a"` survives the merge untouched. -/
theorem merge_preserves_base_leaves_witness :
    (lookupKey "a" [("a", Json.num 1)] = some (Json.num 1) ∧
      (Json.num 1).isObj = false) ∧
    lookupKey "a"
        (mergeEntries [("a", Json.num 1)] [("a", Json.str "x"), ("b", Json.num 2)]) =
      some (Json.num 1) :=
  ⟨⟨rfl, rfl⟩,
    (merge_preserves_base_leaves [("a", Json.str "x"), ("b", Json.num 2)]
        [("a", Json.num 1)] "a").1 (Json.num 1) rfl rfl⟩

/-- Second pass of one overlay entry over an already-merged base is the
identity, given idempotence of the inner merges (`inner`). -/
theorem mergeOne_second_pass (base : List (String × Json)) (k : String) (v : Json)
    (rest : List (String × Json)) (hnc : containsKey k rest = false)
    (inner : ∀ (vo bo : List (String × Json)), v = Json.obj vo →
      mergeEntries (mergeEntries bo vo) vo = mergeEntries bo vo) :
    mergeOne (mergeEntries (mergeOne base k v) rest) k v =
      mergeEntries (mergeOne base k v) rest := by
  have hstab : lookupKey k (mergeEntries (mergeOne base k v) rest) =
      lookupKey k (mergeOne base k v) :=
    lookup_mergeEntries_stable rest (mergeOne base k v) k hnc
  cases hlb : lookupKey k base with
  | none =>
    have h1 : lookupKey k (mergeOne base k v) = some v := by
      rw [mergeOne_insert base k v hlb, lookup_append_of_none k base [(k, v)] hlb]
      simp [lookupKey]
    exact mergeOne_self _ k v (hstab.trans h1)
  | some bv =>
    by_cases hbe : bv = v
    · subst hbe
      have h1 : mergeOne base k bv = base := mergeOne_self base k bv hlb
      rw [h1] at hstab ⊢
      exact mergeOne_self _ k bv (hstab.trans hlb)
    · by_cases hvobj : v.isObj = true
      · by_cases hbobj : bv.isObj = true
        · obtain ⟨vo, hveq⟩ := isObj_iff.mp hvobj
          obtain ⟨bo, hbeq⟩ := isObj_iff.mp hbobj
          subst hveq
          subst hbeq
          have h1 : mergeOne base k (Json.obj vo) =
              setKey k (Json.obj (mergeEntries bo vo)) base :=
            mergeOne_recurse base k bo vo hlb hbe
          have h2 : lookupKey k (mergeOne base k (Json.obj vo)) =
              some (Json.obj (mergeEntries bo vo)) := by
            rw [h1]
            exact lookup_setKey_eq k _ _ base hlb
          have h3 : lookupKey k (mergeEntries (mergeOne base k (Json.obj vo)) rest) =
              some (Json.obj (mergeEntries bo vo)) := hstab.trans h2
          by_cases he2 : Json.obj (mergeEntries bo vo) = Json.obj vo
          · exact mergeOne_self _ k (Json.obj vo) (he2 ▸ h3)
          · rw [mergeOne_recurse _ k (mergeEntries bo vo) vo h3 he2,
              inner vo bo rfl]
            exact setKey_self k _ _ h3
        · have hb : bv.isObj = false := by simpa using hbobj
          have h1 : mergeOne base k v = base :=
            mergeOne_not_both_obj base k v bv hlb (Or.inl hb)
          rw [h1] at hstab ⊢
          exact mergeOne_not_both_obj _ k v bv (hstab.trans hlb) (Or.inl hb)
      · have hv : v.isObj = false := by simpa using hvobj
        have h1 : mergeOne base k v = base :=
          mergeOne_not_both_obj base k v bv hlb (Or.inr hv)
        rw [h1] at hstab ⊢
        exact mergeOne_not_both_obj _ k v bv (hstab.trans hlb) (Or.inr hv)

/-- C4: on overlays that are well-formed JSON objects (distinct keys at
every object level), the manifest merge is idempotent in the overlay:
`merge (merge A B) B = merge A B`. -/
theorem merge_idempotent :
    ∀ (overlay base : List (String × Json)), wfO overlay = true →
      mergeEntries (mergeEntries base overlay) overlay = mergeEntries base overlay
  | [], _, _ => rfl
  | (k, v) :: rest, base, hwf => by
    have h' : (!(containsKey k rest) && wfJ v && wfO rest) = true := hwf
    rw [Bool.and_eq_true, Bool.and_eq_true, Bool.not_eq_true'] at h'
    obtain ⟨⟨hnc, hwfv⟩, hwfr⟩ := h'
    have hE : mergeEntries base ((k, v) :: rest) =
        mergeEntries (mergeOne base k v) rest := mergeEntries_cons base k v rest
    rw [hE, mergeEntries_cons (mergeEntries (mergeOne base k v) rest) k v rest]
    rw [mergeOne_second_pass base k v rest hnc
      (fun vo bo hveq => merge_idempotent vo bo (by rw [hveq] at hwfv; exact hwfv))]
    exact merge_idempotent rest (mergeOne base k v) hwfr
termination_by overlay => sizeOf overlay
decreasing_by
  all_goals simp_wf
  all_goals try subst hveq
  all_goals (simp; omega)

/-- C4 witness: `A = {"a": 1}`, `B = {"a": {"x": 2}, "b": 3}`. -/
theorem merge_idempotent_witness :
    wfO [("a", Json.obj [("x", Json.num 2)]), ("b", Json.num 3)] = true ∧
    mergeEntries
        (mergeEntries [("a", Json.num 1)]
          [("a", Json.obj [("x", Json.num 2)]), ("b", Json.num 3)])
        [("a", Json.obj [("x", Json.num 2)]), ("b", Json.num 3)] =
      mergeEntries [("a", Json.num 1)]
        [("a", Json.obj [("x", Json.num 2)]), ("b", Json.num 3)] :=
  ⟨by decide,
    merge_idempotent [("a", Json.obj [("x", Json.num 2)]), ("b", Json.num 3)]
      [("a", Json.num 1)] (by decide)⟩

/-! ## `read_jar_manifest_attribute` and `install_and_run`
(src/actions/server.rs, lines 331-352 and 376-444)

```rust
fn read_jar_manifest_attribute(jar_file: &PathBuf, attribute: &str) -> ... {
    let attribute = &(attribute.to_owned() + ": ");
    ... let mf_str = std::io::read_to_string(&mut manifest)?;
    let main_class_line = mf_str.split("\n").find(|line| line.starts_with(attribute));
    if let Some(line) = main_class_line {
        let class = line.strip_prefix(attribute);
        if let Some(name) = class {
            return Ok(name.trim_ascii().to_owned());
        }
    }
    Err(InstallerError("Couldn't find '".to_owned() + attribute + "' ..."))
}
```

`install_and_run` computes
```rust
let mut needs_install = false;
if !launch_jar.exists() { needs_install = true; }
if !needs_install {
    needs_install = read_jar_manifest_attribute(&launch_jar, "Minecraft-Version")
        .map(|v| v.trim_ascii() != version.id)
        .unwrap_or(true);
}
if needs_install { install_path(...).await?; }
... spawn child with inherited stdin/stdout/stderr ...
Ok(needs_install)
```

The file system is abstracted to `jarManifest : Option (List Char)`
(`none` = the launcher jar is absent, `some mf` = it exists and its
`META-INF/MANIFEST.MF` reads as `mf`); the effects of the `install_path`
stage and of the process launch are abstracted to `RunAction`s in order. -/

/-- Split a string at every `'\n'` (Rust `str::split("\n")`). -/
def splitNewline : List Char → List (List Char)
  | [] => [[]]
  | '\n' :: rest => [] :: splitNewline rest
  | c :: rest => consHead c (splitNewline rest)

/-- Rust `str::strip_prefix` (here named for the manifest attribute use). -/
def dropAttrPfx (p l : List Char) : Option (List Char) :=
  if beginsWith p l then some (l.drop p.length) else none

/-- `read_jar_manifest_attribute` from `src/actions/server.rs`, as a pure
function of the manifest text. -/
def read_jar_manifest_attribute (mf : List Char) (attrName : List Char) :
    Except (List Char) (List Char) :=
  let attr := attrName ++ ": ".data
  match (splitNewline mf).find? (fun line => beginsWith attr line) with
  | some line =>
    match dropAttrPfx attr line with
    | some name => Except.ok (trimAscii name)
    | none => Except.error ("Couldn't find attribute in jar manifest!".data)
  | none => Except.error ("Couldn't find attribute in jar manifest!".data)

/-- The observable steps of `install_and_run`: performing the install stage
(`install_path`, i.e. all library-download work and its progress events),
and launching the server jar as a child process (recording whether the
standard streams are inherited). -/
inductive RunAction where
  | install
  | launch (inheritStdio : Bool)
  deriving DecidableEq

/-- `install_and_run` from `src/actions/server.rs`: returns the
`needs_install` boolean result together with the ordered actions taken. -/
def install_and_run (jarManifest : Option (List Char)) (versionId : List Char) :
    Bool × List RunAction :=
  let needs_install :=
    match jarManifest with
    | none => true
    | some mf =>
      match read_jar_manifest_attribute mf "Minecraft-Version".data with
      | Except.ok v => decide (trimAscii v ≠ versionId)
      | Except.error _ => true
  (needs_install,
    (if needs_install then [RunAction.install] else []) ++ [RunAction.launch true])

/-- C5: the install stage runs iff the jar is absent, the
`Minecraft-Version` attribute cannot be read, or its trimmed value differs
from the requested id; otherwise the trace is only the child-process launch
(inherited stdio), and the boolean result reports whether the install was
performed. -/
theorem install_and_run_spec (jarManifest : Option (List Char))
    (versionId : List Char) :
    ((install_and_run jarManifest versionId).1 = false ↔
      ∃ mf v, jarManifest = some mf ∧
        read_jar_manifest_attribute mf "Minecraft-Version".data = Except.ok v ∧
        trimAscii v = versionId) ∧
    ((install_and_run jarManifest versionId).2 =
      if (install_and_run jarManifest versionId).1 then
        [RunAction.install, RunAction.launch true]
      else [RunAction.launch true]) ∧
    (RunAction.install ∈ (install_and_run jarManifest versionId).2 ↔
      (install_and_run jarManifest versionId).1 = true) := by
  have htr : (install_and_run jarManifest versionId).2 =
      (if (install_and_run jarManifest versionId).1 then [RunAction.install]
        else []) ++ [RunAction.launch true] := rfl
  refine ⟨?_, ?_, ?_⟩
  · cases jarManifest with
    | none => simp [install_and_run]
    | some mf =>
      cases hr : read_jar_manifest_attribute mf ("Minecraft-Version".data) with
      | error e => simp [install_and_run, hr]
      | ok v =>
        by_cases ht : trimAscii v = versionId
        · simp [install_and_run, hr, ht]
        · simp [install_and_run, hr, ht]
  · rw [htr]
    cases h : (install_and_run jarManifest versionId).1 <;> simp
  · rw [htr]
    cases h : (install_and_run jarManifest versionId).1 <;> simp

/-! ## `update_profiles` (src/actions/client.rs, lines 131-202)

```rust
let raw_profiles = json.as_object_mut().ok_or_else(fn_json_error)?
    .get_mut("profiles").ok_or_else(fn_json_error)?;
if !raw_profiles.is_object() { return Err(...profiles_not_an_object...); }
let profiles = raw_profiles.as_object_mut().ok_or_else(fn_json_error)?;
let new_profile_name = format!("Ornithe Gen{calamus_gen} {} {}",
    loader_type.get_localized_name(), version.id);
if profiles.contains_key(&new_profile_name) {
    let raw_profile = profiles.get_mut(&new_profile_name).ok_or_else(...)?;
    if !raw_profile.is_object() { return Err(...cannot_update_profile...); }
    raw_profile.as_object_mut().ok_or_else(...)?
        .insert("lastVersionId".to_string(), Value::String(name));
} else {
    let profile = json!({ "name": new_profile_name, "type": "custom",
        "created": Utc::now(), "lastUsed": Utc::now(),
        "icon": get_icon_string(), "lastVersionId": name });
    profiles.insert(new_profile_name, profile);
}
std::fs::write(&launcher_profiles_path, serde_json::to_string(&json)?)?;
```

Timestamps and the icon data-URL are opaque inputs (`now`, `icon`).
-/

/-- `serde_json::Map::insert`: replace the value of an existing key, else
append a new binding. -/
def insertKey (k : String) (v : Json) (o : List (String × Json)) :
    List (String × Json) :=
  if containsKey k o then setKey k v o else o ++ [(k, v)]

/-- The deterministically constructed display name
`"Ornithe Gen{gen} {loader} {version}"`. -/
def new_profile_name (gen : Nat) (loaderLocalized : String) (versionId : String) :
    String :=
  "Ornithe Gen" ++ toString gen ++ " " ++ loaderLocalized ++ " " ++ versionId

/-- The freshly created launcher-profile entry (the `json!` literal). -/
def newProfileJson (name newName now icon : String) : Json :=
  Json.obj [("name", Json.str newName), ("type", Json.str "custom"),
    ("created", Json.str now), ("lastUsed", Json.str now),
    ("icon", Json.str icon), ("lastVersionId", Json.str name)]

/-- `update_profiles` from `src/actions/client.rs`, as a function of the
parsed registry document. -/
def update_profiles (doc : Json) (name newProfileName now icon : String) :
    Except String Json :=
  match doc with
  | Json.obj docFields =>
    match lookupKey "profiles" docFields with
    | none => Except.error "client.error.invalid_launcher_profiles_json"
    | some raw =>
      match raw with
      | Json.obj profiles =>
        if containsKey newProfileName profiles then
          match lookupKey newProfileName profiles with
          | some (Json.obj p) =>
            Except.ok (Json.obj (setKey "profiles"
              (Json.obj (setKey newProfileName
                (Json.obj (insertKey "lastVersionId" (Json.str name) p))
                profiles))
              docFields))
          | some _ => Except.error "client.error.cannot_update_profile"
          | none => Except.error "client.error.invalid_launcher_profiles_json"
        else
          Except.ok (Json.obj (setKey "profiles"
            (Json.obj (profiles ++
              [(newProfileName, newProfileJson name newProfileName now icon)]))
            docFields))
      | _ => Except.error "client.error.profiles_not_an_object"
  | _ => Except.error "client.error.invalid_launcher_profiles_json"

/-! ### Auxiliary lookup lemmas for C6 -/

theorem lookup_none_of_not_contains (k : String) (o : List (String × Json))
    (h : containsKey k o = false) : lookupKey k o = none := by
  induction o with
  | nil => rfl
  | cons e rest ih =>
    rcases e with ⟨k', v'⟩
    rw [containsKey, Bool.or_eq_false_iff] at h
    rw [lookupKey, if_neg (by simpa using h.1)]
    exact ih h.2

theorem contains_of_lookup_some (k : String) (o : List (String × Json)) (v : Json)
    (h : lookupKey k o = some v) : containsKey k o = true := by
  induction o with
  | nil => simp [lookupKey] at h
  | cons e rest ih =>
    rcases e with ⟨k', v'⟩
    rw [lookupKey] at h
    rw [containsKey, Bool.or_eq_true]
    by_cases hk : k' = k
    · exact Or.inl (by simpa using hk)
    · rw [if_neg hk] at h
      exact Or.inr (ih h)

theorem lookup_append_single_ne (u k : String) (v : Json)
    (o : List (String × Json)) (h : u ≠ k) :
    lookupKey u (o ++ [(k, v)]) = lookupKey u o := by
  cases hl : lookupKey u o with
  | none =>
    rw [lookup_append_of_none u o [(k, v)] hl]
    simp [lookupKey, Ne.symm h]
  | some w => rw [lookup_append_of_some u o [(k, v)] w hl]

theorem lookup_append_single_eq (k : String) (v : Json) (o : List (String × Json))
    (h : lookupKey k o = none) : lookupKey k (o ++ [(k, v)]) = some v := by
  rw [lookup_append_of_none k o [(k, v)] h]
  simp [lookupKey]

theorem setKey_length (k : String) (v : Json) (o : List (String × Json)) :
    (setKey k v o).length = o.length := by
  induction o with
  | nil => rfl
  | cons e rest ih =>
    rcases e with ⟨k', v'⟩
    rw [setKey]
    by_cases hk : k' = k
    · rw [if_pos hk]; simp
    · rw [if_neg hk]
      simp [ih]

theorem lookup_isSome_of_contains (k : String) (o : List (String × Json))
    (h : containsKey k o = true) : ∃ v, lookupKey k o = some v := by
  induction o with
  | nil => simp [containsKey] at h
  | cons e rest ih =>
    rcases e with ⟨k', v'⟩
    rw [containsKey, Bool.or_eq_true] at h
    rw [lookupKey]
    by_cases hk : k' = k
    · exact ⟨v', by rw [if_pos hk]⟩
    · rw [if_neg hk]
      exact ih (h.resolve_left (by simpa using hk))

theorem lookup_insertKey_eq (k : String) (v : Json) (o : List (String × Json)) :
    lookupKey k (insertKey k v o) = some v := by
  unfold insertKey
  cases hc : containsKey k o with
  | false =>
    simp only [Bool.false_eq_true, if_false]
    exact lookup_append_single_eq k v o (lookup_none_of_not_contains k o hc)
  | true =>
    simp only [if_true]
    obtain ⟨bv, hbv⟩ := lookup_isSome_of_contains k o hc
    exact lookup_setKey_eq k v bv o hbv

theorem lookup_insertKey_ne (f k : String) (v : Json) (o : List (String × Json))
    (h : f ≠ k) : lookupKey f (insertKey k v o) = lookupKey f o := by
  unfold insertKey
  cases hc : containsKey k o with
  | false =>
    simp only [Bool.false_eq_true, if_false]
    exact lookup_append_single_ne f k v o h
  | true =>
    simp only [if_true]
    exact lookup_setKey_ne f k v o h

/-- C6: with a well-shaped registry document, installing a profile under a
fresh computed display name appends exactly one entry and leaves every
other entry (in particular an unrelated key `u`) untouched; when an object
entry already exists under that name, only its `lastVersionId` field is
replaced, every other field of that entry and every other profile being
preserved, and the rest of the document is only changed at `"profiles"`. -/
theorem update_profiles_spec
    (docFields profiles : List (String × Json)) (name newName now icon u : String)
    (hp : lookupKey "profiles" docFields = some (Json.obj profiles))
    (hu : u ≠ newName) :
    (containsKey newName profiles = false →
      update_profiles (Json.obj docFields) name newName now icon =
        Except.ok (Json.obj (setKey "profiles"
          (Json.obj (profiles ++ [(newName, newProfileJson name newName now icon)]))
          docFields)) ∧
      (profiles ++ [(newName, newProfileJson name newName now icon)]).length =
        profiles.length + 1 ∧
      lookupKey u (profiles ++ [(newName, newProfileJson name newName now icon)]) =
        lookupKey u profiles ∧
      lookupKey newName (profiles ++ [(newName, newProfileJson name newName now icon)]) =
        some (newProfileJson name newName now icon)) ∧
    (∀ p : List (String × Json), lookupKey newName profiles = some (Json.obj p) →
      update_profiles (Json.obj docFields) name newName now icon =
        Except.ok (Json.obj (setKey "profiles"
          (Json.obj (setKey newName
            (Json.obj (insertKey "lastVersionId" (Json.str name) p)) profiles))
          docFields)) ∧
      lookupKey "lastVersionId" (insertKey "lastVersionId" (Json.str name) p) =
        some (Json.str name) ∧
      (∀ f : String, f ≠ "lastVersionId" →
        lookupKey f (insertKey "lastVersionId" (Json.str name) p) = lookupKey f p) ∧
      lookupKey u (setKey newName
          (Json.obj (insertKey "lastVersionId" (Json.str name) p)) profiles) =
        lookupKey u profiles ∧
      (setKey newName (Json.obj (insertKey "lastVersionId" (Json.str name) p))
          profiles).length = profiles.length) ∧
    (∀ (dk : String) (x : Json), dk ≠ "profiles" →
      lookupKey dk (setKey "profiles" x docFields) = lookupKey dk docFields) := by
  refine ⟨?_, ?_, fun dk x hdk => lookup_setKey_ne dk "profiles" x docFields hdk⟩
  · intro hfresh
    refine ⟨?_, by simp, lookup_append_single_ne u newName _ profiles hu,
      lookup_append_single_eq newName _ profiles
        (lookup_none_of_not_contains newName profiles hfresh)⟩
    simp [update_profiles, hp, hfresh]
  · intro p hl
    have hc : containsKey newName profiles = true :=
      contains_of_lookup_some newName profiles _ hl
    refine ⟨?_, lookup_insertKey_eq "lastVersionId" (Json.str name) p,
      fun f hf => lookup_insertKey_ne f "lastVersionId" (Json.str name) p hf,
      lookup_setKey_ne u newName _ profiles hu,
      setKey_length newName _ profiles⟩
    simp [update_profiles, hp, hc, hl]

/-- C6 witness: a registry with one unrelated profile `"Old"`; the computed
name is fresh, so exactly one entry is appended. -/
theorem update_profiles_spec_witness :
    (lookupKey "profiles" [("profiles", Json.obj [("Old", Json.num 7)])] =
        some (Json.obj [("Old", Json.num 7)]) ∧
      "Old" ≠ new_profile_name 2 "Fabric" "1.2.1") ∧
    (containsKey (new_profile_name 2 "Fabric" "1.2.1") [("Old", Json.num 7)] = false →
      update_profiles (Json.obj [("profiles", Json.obj [("Old", Json.num 7)])])
          "prof-id" (new_profile_name 2 "Fabric" "1.2.1") "now" "icon" =
        Except.ok (Json.obj (setKey "profiles"
          (Json.obj ([("Old", Json.num 7)] ++
            [(new_profile_name 2 "Fabric" "1.2.1",
              newProfileJson "prof-id" (new_profile_name 2 "Fabric" "1.2.1") "now" "icon")]))
          [("profiles", Json.obj [("Old", Json.num 7)])])) ∧
      ([("Old", Json.num 7)] ++
        [(new_profile_name 2 "Fabric" "1.2.1",
          newProfileJson "prof-id" (new_profile_name 2 "Fabric" "1.2.1") "now" "icon")]).length =
        [("Old", Json.num 7)].length + 1 ∧
      lookupKey "Old" ([("Old", Json.num 7)] ++
        [(new_profile_name 2 "Fabric" "1.2.1",
          newProfileJson "prof-id" (new_profile_name 2 "Fabric" "1.2.1") "now" "icon")]) =
        lookupKey "Old" [("Old", Json.num 7)] ∧
      lookupKey (new_profile_name 2 "Fabric" "1.2.1") ([("Old", Json.num 7)] ++
        [(new_profile_name 2 "Fabric" "1.2.1",
          newProfileJson "prof-id" (new_profile_name 2 "Fabric" "1.2.1") "now" "icon")]) =
        some (newProfileJson "prof-id" (new_profile_name 2 "Fabric" "1.2.1") "now" "icon")) :=
  ⟨⟨by decide, by decide⟩,
    (update_profiles_spec [("profiles", Json.obj [("Old", Json.num 7)])]
      [("Old", Json.num 7)] "prof-id" (new_profile_name 2 "Fabric" "1.2.1")
      "now" "icon" "Old" (by decide) (by decide)).1⟩

/-! ## The instance-package output-location check
(src/actions/mmc_pack.rs, lines 45-48 and 100-111, and the writes that
follow)

```rust
if !output_dir.exists() { std::fs::create_dir_all(&output_dir)?; }
...
let output_file = if generate_zip {
    output_dir.join(profile_name.clone() + ".zip")
} else {
    let dir = output_dir.join(profile_name.clone());
    if std::fs::exists(&dir).unwrap_or_default() {
        return Err(InstallerError::from(t!("mmc.error.instance_already_exists")));
    }
    std::fs::create_dir_all(&dir)?;
    dir
};
```

File-system paths are segment lists relative to `output_dir` (`[]` is the
output directory itself); the remote fetches are pure parameters; the
writes of the ok path are listed in program order. -/

inductive FsOp where
  | createDirAll (p : List String)
  | removeFile (p : List String)
  | createFile (p : List String)
  | writeFile (p : List String)
  | createDir (p : List String)
  deriving DecidableEq

def FsOp.path : FsOp → List String
  | FsOp.createDirAll p => p
  | FsOp.removeFile p => p
  | FsOp.createFile p => p
  | FsOp.writeFile p => p
  | FsOp.createDir p => p

/-- Is the first segment list a prefix of the second (i.e. does the second
path lie under the first)? -/
def segPrefix : List String → List String → Bool
  | [], _ => true
  | _ :: _, [] => false
  | a :: as, b :: bs => a = b && segPrefix as bs

/-- The file-system side of `install` from `src/actions/mmc_pack.rs`:
the ordered operations performed and the outcome.  `instanceDirExists`
(resp. `zipFileExists`) tells whether `output_dir/profile_name` (resp.
`output_dir/profile_name.zip`) already exists. -/
def mmc_install (outputDirExists generate_zip instanceDirExists zipFileExists : Bool)
    (profile_name : String) (extraLibUids : List String) (lwjglVanilla : Bool) :
    List FsOp × Except String Unit :=
  let ops0 := if outputDirExists then [] else [FsOp.createDirAll []]
  if generate_zip then
    let zipPath := [profile_name ++ ".zip"]
    (ops0 ++ (if zipFileExists then [FsOp.removeFile zipPath] else []) ++
      [FsOp.createFile zipPath],
      Except.ok ())
  else
    if instanceDirExists then
      (ops0, Except.error "mmc.error.instance_already_exists")
    else
      let dir := [profile_name]
      (ops0 ++ [FsOp.createDirAll dir] ++
        [FsOp.writeFile (dir ++ ["instance.cfg"]),
          FsOp.writeFile (dir ++ ["ornithe.png"]),
          FsOp.createDir (dir ++ ["patches"]),
          FsOp.writeFile (dir ++ ["patches", "net.fabricmc.intermediary.json"]),
          FsOp.writeFile (dir ++ ["patches", "net.minecraft.json"])] ++
        extraLibUids.map (fun uid => FsOp.writeFile (dir ++ ["patches", uid ++ ".json"])) ++
        (if lwjglVanilla then []
          else [FsOp.writeFile (dir ++ ["patches", "org.lwjgl.json"])]) ++
        [FsOp.writeFile (dir ++ ["patches", "net.ornithemc.flap.json"]),
          FsOp.writeFile (dir ++ ["mmc-pack.json"])],
        Except.ok ())

/-- C7: with `generate_zip = false` and a pre-existing directory named
after the computed instance name, `install` fails with the
"already exists" error, and no performed operation touches anything at or
under that directory. -/
theorem mmc_install_refuses_existing_dir
    (outputDirExists zipFileExists lwjglVanilla : Bool) (profile_name : String)
    (extraLibUids : List String) :
    (mmc_install outputDirExists false true zipFileExists profile_name
        extraLibUids lwjglVanilla).2 =
      Except.error "mmc.error.instance_already_exists" ∧
    ∀ op ∈ (mmc_install outputDirExists false true zipFileExists profile_name
        extraLibUids lwjglVanilla).1,
      segPrefix [profile_name] op.path = false := by
  cases outputDirExists with
  | false =>
    refine ⟨rfl, ?_⟩
    intro op hop
    simp [mmc_install] at hop
    simp [hop, FsOp.path, segPrefix]
  | true =>
    refine ⟨rfl, ?_⟩
    intro op hop
    simp [mmc_install] at hop

/-! ## The library-download loop of `install_path`
(src/actions/server.rs, lines 180-244)

```rust
while let Some(done) = library_files.join_next().await {
    match done {
        Ok(res) => match res {
            Ok(file) => { downloaded_library_files.push(file); ... progress ... }
            Err(e) => {
                return Err(InstallerError("Failed to download library: ".to_owned() + &e.0));
            }
        },
        Err(e) => { return Err(...); }
    }
}
...
create_launch_jar(...).await?;
if install_server { ... download server.jar ... }
```

Task outcomes are given in completion order; `InstallerError` (declared in
the `errors` module, which is not under `src/`) is spec-modelled as its
message string, which is all `install_path` uses of it (`e.0`,
concatenation). -/

/-- The drain loop over the download tasks' results in completion order:
collects the downloaded files, or returns the first failure wrapped with
the fixed prefix. -/
def collect_downloads :
    List (Except (List Char) (List Char)) → Except (List Char) (List (List Char))
  | [] => Except.ok []
  | Except.ok file :: rest =>
    match collect_downloads rest with
    | Except.ok files => Except.ok (file :: files)
    | Except.error e => Except.error e
  | Except.error e :: _rest =>
    Except.error ("Failed to download library: ".data ++ e)

/-- The artifact-producing steps that follow the download loop. -/
inductive ServerOp where
  | createLaunchJar
  | downloadServerJar
  deriving DecidableEq

/-- `install_path` from the download drain onwards: its result and the
artifact steps it performs. -/
def install_path_after_downloads
    (downloads : List (Except (List Char) (List Char))) (install_server : Bool) :
    Except (List Char) Unit × List ServerOp :=
  match collect_downloads downloads with
  | Except.error e => (Except.error e, [])
  | Except.ok _files =>
    (Except.ok (),
      ServerOp.createLaunchJar ::
        (if install_server then [ServerOp.downloadServerJar] else []))

/-- C8 (amended): if any download task fails, the first failure (in
completion order, after `pre` successes) aborts the whole resolution:
`install_path` returns that error wrapped with the fixed prefix
`"Failed to download library: "`, the remaining results are never
inspected, and no launch-jar artifact (nor server jar) is produced. -/
theorem install_path_abort_on_failure (pre : List (List Char)) (e : List Char)
    (rest : List (Except (List Char) (List Char))) (install_server : Bool) :
    (install_path_after_downloads
        (pre.map Except.ok ++ Except.error e :: rest) install_server).1 =
      Except.error ("Failed to download library: ".data ++ e) ∧
    (install_path_after_downloads
        (pre.map Except.ok ++ Except.error e :: rest) install_server).2 = [] := by
  have hc : collect_downloads (pre.map Except.ok ++ Except.error e :: rest) =
      Except.error ("Failed to download library: ".data ++ e) := by
    induction pre with
    | nil => rfl
    | cons f pre' ih =>
      rw [List.map_cons, List.cons_append, collect_downloads, ih]
  rw [install_path_after_downloads, hc]
  exact ⟨rfl, rfl⟩

/-- C8 counterexample to the claim as stated: the failing coordinate
`"com.example:lib:1.0"` whose download fails with the underlying message
`"connection reset"` produces the error
`"Failed to download library: connection reset"`, which does not contain
the coordinate's identity (neither in `group:artifact:version` nor in
Maven-path form). -/
theorem install_path_error_lacks_coordinate :
    (install_path_after_downloads [Except.error "connection reset".data] true).1 =
      Except.error ("Failed to download library: ".data ++ "connection reset".data) ∧
    hasSub ("Failed to download library: ".data ++ "connection reset".data)
      "com.example:lib:1.0".data = false ∧
    hasSub ("Failed to download library: ".data ++ "connection reset".data)
      "com/example/lib/1.0".data = false := by
  refine ⟨rfl, by decide, by decide⟩

end Ornithe
